import Mathlib

/-!
Shallow embedding of the finite-field arithmetic of `src/ecc.rs` together
with the `ValueError` type of `src/errors.rs`.

Modelling conventions:
* `UBig` (arbitrary-precision unsigned integer) is modelled as `Nat`.
* `UBig` subtraction panics when the result would be negative, and `UBig`
  division and remainder panic on a zero divisor; a panic (process abort,
  including a failed `assert_eq!`) is modelled as `none`.
* The `i128` exponent of `pow` is modelled as an `Int`; the `as usize` cast
  truncates to the low 64 bits of the two's-complement representation (the
  crate targets a 64-bit platform), and the `i128` multiplication and `usize`
  addition inside `pow` panic (`none`) on overflow, the semantics of the
  overflow-checked profile under which the repository's tests run.
* Rust `Result` is modelled as `Except`.
-/

/-- The `FieldElement` struct: residue `num` and modulus `prime`, both `UBig`. -/
structure FieldElement where
  num : Nat
  prime : Nat
deriving DecidableEq

/-- The `ValueError` struct of `src/errors.rs`: a diagnostic message. -/
structure ValueError where
  message : String
deriving DecidableEq

/-- `UBig` subtraction `a - b`: panics (`none`) when `b` exceeds `a`. -/
def usub (a b : Nat) : Option Nat :=
  if a < b then none else some (a - b)

/-- `UBig` remainder `a % b`: panics (`none`) when `b = 0`. -/
def urem (a b : Nat) : Option Nat :=
  if b = 0 then none else some (a % b)

/-- `UBig` division `a / b`: panics (`none`) when `b = 0`. -/
def udiv (a b : Nat) : Option Nat :=
  if b = 0 then none else some (a / b)

/-- An `as usize` cast of an `i128` value: truncation to the low 64 bits of
the two's-complement representation (64-bit platform); the modulus numeral
is `2 ^ 64`. -/
def i128ToUsize (x : Int) : Nat :=
  (x % 18446744073709551616).toNat

/-- `usize` addition: panics (`none`) when the sum exceeds `2 ^ 64 - 1`
(overflow-checked profile); the bound numeral is `2 ^ 64`. -/
def usizeAdd (a b : Nat) : Option Nat :=
  if a + b < 18446744073709551616 then some (a + b) else none

/-- The `i128` product `-1 * power`: panics (`none`) when the result leaves
the `i128` range (overflow-checked profile); for an `i128` argument this
happens only at `power = -2 ^ 127`. The bound numerals are `2 ^ 127`. -/
def i128Neg (power : Int) : Option Int :=
  if -170141183460469231731687303715884105728 ≤ -1 * power ∧
      -1 * power < 170141183460469231731687303715884105728 then
    some (-1 * power)
  else none

namespace FieldElement

/-- `impl Add for FieldElement`: asserts `self.prime == rhs.prime`, then
builds the element with `num = (self.num + rhs.num) % self.prime`. -/
def add (a b : FieldElement) : Option FieldElement :=
  if a.prime = b.prime then
    (urem (a.num + b.num) a.prime).map fun n => ⟨n, a.prime⟩
  else none

/-- `impl Sub for FieldElement`: asserts equal primes, then
`new_num = prime - ((rhs.num - self.num) % prime)` when `self.num < rhs.num`,
and `self.num - rhs.num` otherwise. -/
def sub (a b : FieldElement) : Option FieldElement :=
  if a.prime = b.prime then
    (if a.num < b.num then
      (usub b.num a.num).bind fun d =>
        (urem d a.prime).bind fun m => usub a.prime m
    else usub a.num b.num).map fun n => ⟨n, a.prime⟩
  else none

/-- `impl Neg for FieldElement`: builds the element with
`num = self.prime - (self.num % self.prime)`; no assertion. -/
def neg (a : FieldElement) : Option FieldElement :=
  (urem a.num a.prime).bind fun m =>
    (usub a.prime m).map fun n => ⟨n, a.prime⟩

/-- `impl PartialEq for FieldElement`: structural equality on `num` and `prime`. -/
def eq (a b : FieldElement) : Bool :=
  a.num == b.num && a.prime == b.prime

/-- `impl Mul for FieldElement`: asserts equal primes, then
`num = (self.num * rhs.num) % self.prime`. -/
def mul (a b : FieldElement) : Option FieldElement :=
  if a.prime = b.prime then
    (urem (a.num * b.num) a.prime).map fun n => ⟨n, a.prime⟩
  else none

/-- `impl Div for FieldElement`: asserts equal primes, then
`num = (self.num / rhs.num) % self.prime` — integer floor division of the
residues followed by reduction. -/
def div (a b : FieldElement) : Option FieldElement :=
  if a.prime = b.prime then
    (udiv a.num b.num).bind fun q =>
      (urem q a.prime).map fun n => ⟨n, a.prime⟩
  else none

/-- `FieldElementOps::new`: when `num >= prime` returns `Err` with the message
built from `num` and `prime - 1` (that subtraction is a `UBig` subtraction and
panics when `prime = 0`); otherwise returns `Ok` of the element as given. -/
def new (num prime : Nat) : Option (Except ValueError FieldElement) :=
  if prime ≤ num then
    (usub prime 1).map fun p1 =>
      Except.error
        ⟨"num " ++ toString num ++ " not in field range 0 to " ++ toString p1⟩
  else some (Except.ok ⟨num, prime⟩)

/-- `FieldElementOps::pow`: the effective `usize` exponent is
`1_usize + (-1 * power) as usize` when `power < 0`, and `power as usize`
otherwise; the result has `num = self.num ^ exp % self.prime`. The `as usize`
casts truncate to the low 64 bits, and the `i128` multiplication and the
`usize` addition panic on overflow. -/
def pow (a : FieldElement) (power : Int) : Option FieldElement :=
  (if power < 0 then
    (i128Neg power).bind fun np => usizeAdd 1 (i128ToUsize np)
  else some (i128ToUsize power)).bind fun exp =>
    (urem (a.num ^ exp) a.prime).map fun n => ⟨n, a.prime⟩

/-- An element is validly constructed exactly when its residue lies strictly
below its modulus — the condition `new` enforces. -/
abbrev Valid (a : FieldElement) : Prop := a.num < a.prime

end FieldElement

/-! Helper evaluation lemmas for the panicking `UBig` primitives. -/

theorem usub_of_le (a b : Nat) (h : b ≤ a) : usub a b = some (a - b) := by
  unfold usub
  rw [if_neg (Nat.not_lt.mpr h)]

theorem urem_of_pos (a b : Nat) (h : 0 < b) : urem a b = some (a % b) := by
  unfold urem
  rw [if_neg (Nat.pos_iff_ne_zero.mp h)]

theorem udiv_of_ne_zero (a b : Nat) (h : b ≠ 0) : udiv a b = some (a / b) := by
  unfold udiv
  rw [if_neg h]

theorem i128ToUsize_of_lt (x : Int) (h0 : 0 ≤ x) (h : x < 2 ^ 64) :
    i128ToUsize x = x.toNat := by
  unfold i128ToUsize
  rw [Int.emod_eq_of_lt h0 (by omega)]

theorem usizeAdd_of_lt (a b : Nat) (h : a + b < 2 ^ 64) :
    usizeAdd a b = some (a + b) := by
  unfold usizeAdd
  rw [if_pos (by omega : a + b < 18446744073709551616)]

theorem i128Neg_of_bounds (power : Int) (h0 : -(2 ^ 127) ≤ -1 * power)
    (h1 : -1 * power < 2 ^ 127) : i128Neg power = some (-1 * power) := by
  unfold i128Neg
  have hc : -170141183460469231731687303715884105728 ≤ -1 * power ∧
      -1 * power < 170141183460469231731687303715884105728 := by
    constructor <;> omega
  rw [if_pos hc]

theorem FieldElement.Valid.pos {a : FieldElement} (h : a.Valid) : 0 < a.prime :=
  Nat.lt_of_le_of_lt (Nat.zero_le _) h

/-! Helper evaluation lemmas for the operators on well-behaved inputs. -/

theorem FieldElement.add_eval (a b : FieldElement) (hp : a.prime = b.prime)
    (hpos : 0 < a.prime) :
    a.add b = some ⟨(a.num + b.num) % a.prime, a.prime⟩ := by
  unfold FieldElement.add
  rw [if_pos hp, urem_of_pos _ _ hpos, Option.map_some']

theorem FieldElement.mul_eval (a b : FieldElement) (hp : a.prime = b.prime)
    (hpos : 0 < a.prime) :
    a.mul b = some ⟨a.num * b.num % a.prime, a.prime⟩ := by
  unfold FieldElement.mul
  rw [if_pos hp, urem_of_pos _ _ hpos, Option.map_some']

theorem FieldElement.div_eval (a b : FieldElement) (hp : a.prime = b.prime)
    (hpos : 0 < a.prime) (hb : b.num ≠ 0) :
    a.div b = some ⟨a.num / b.num % a.prime, a.prime⟩ := by
  unfold FieldElement.div
  rw [if_pos hp, udiv_of_ne_zero _ _ hb, Option.some_bind, urem_of_pos _ _ hpos,
    Option.map_some']

theorem FieldElement.neg_eval (a : FieldElement) (hpos : 0 < a.prime) :
    a.neg = some ⟨a.prime - a.num % a.prime, a.prime⟩ := by
  unfold FieldElement.neg
  rw [urem_of_pos _ _ hpos, Option.some_bind,
    usub_of_le _ _ (Nat.le_of_lt (Nat.mod_lt _ hpos)), Option.map_some']

theorem FieldElement.sub_eval_lt (a b : FieldElement) (hp : a.prime = b.prime)
    (hpos : 0 < a.prime) (hlt : a.num < b.num) :
    a.sub b = some ⟨a.prime - (b.num - a.num) % a.prime, a.prime⟩ := by
  unfold FieldElement.sub
  rw [if_pos hp, if_pos hlt, usub_of_le _ _ (Nat.le_of_lt hlt), Option.some_bind,
    urem_of_pos _ _ hpos, Option.some_bind,
    usub_of_le _ _ (Nat.le_of_lt (Nat.mod_lt _ hpos)), Option.map_some']

theorem FieldElement.sub_eval_ge (a b : FieldElement) (hp : a.prime = b.prime)
    (hge : b.num ≤ a.num) :
    a.sub b = some ⟨a.num - b.num, a.prime⟩ := by
  unfold FieldElement.sub
  rw [if_pos hp, if_neg (Nat.not_lt.mpr hge), usub_of_le _ _ hge, Option.map_some']

/-- Claim C1 (counterexample): at `num = 0, prime = 0` the guard `num >= prime`
holds, so the constructor takes the error branch, and the message computation
`prime - 1` underflows the unsigned big integer: the call aborts instead of
returning an `Err`. -/
theorem new_zero_prime_panics : FieldElement.new 0 0 = none := rfl

/-- Claim C1 (amended: the modulus is positive): for `prime ≥ 1`,
`new num prime` returns `Ok` of the element exactly when `num < prime`, and
when `num ≥ prime` it returns an `Err` whose message spells out the offending
`num` and the range endpoints `0` and `prime - 1`. -/
theorem new_contract_pos_prime (num prime : Nat) (hp : 1 ≤ prime) :
    (FieldElement.new num prime = some (Except.ok ⟨num, prime⟩) ↔ num < prime) ∧
    (prime ≤ num → FieldElement.new num prime = some (Except.error
      ⟨"num " ++ toString num ++ " not in field range 0 to "
        ++ toString (prime - 1)⟩)) := by
  unfold FieldElement.new
  by_cases h : prime ≤ num
  · rw [if_pos h, usub_of_le _ _ hp, Option.map_some']
    refine ⟨⟨fun hEq => ?_, fun hlt => absurd hlt (Nat.not_lt.mpr h)⟩, fun _ => rfl⟩
    exact absurd (Option.some.inj hEq) (fun hx => Except.noConfusion hx)
  · rw [if_neg h]
    exact ⟨by simp [Nat.lt_of_not_le h], fun h2 => absurd h2 h⟩

/-- Claim C1 witness: the amended contract instantiated at `num = 5, prime = 3`. -/
theorem new_contract_pos_prime_witness :
    (FieldElement.new 5 3 = some (Except.ok ⟨5, 3⟩) ↔ 5 < 3) ∧
    (3 ≤ 5 → FieldElement.new 5 3 = some (Except.error
      ⟨"num " ++ toString 5 ++ " not in field range 0 to " ++ toString (3 - 1)⟩)) :=
  new_contract_pos_prime 5 3 (by decide)

/-- Claim C2: on validly constructed operands sharing a modulus, addition,
subtraction and multiplication (and division under a nonzero divisor residue)
return elements whose residue is again strictly below the modulus and whose
modulus is unchanged; negation does too on nonzero residues, while negating
the zero element returns residue equal to the modulus, breaking the invariant. -/
theorem closure_binops_neg (a b : FieldElement) (ha : a.Valid) (hb : b.Valid)
    (hp : a.prime = b.prime) :
    (∃ r, a.add b = some r ∧ r.num < a.prime ∧ r.prime = a.prime) ∧
    (∃ r, a.sub b = some r ∧ r.num < a.prime ∧ r.prime = a.prime) ∧
    (∃ r, a.mul b = some r ∧ r.num < a.prime ∧ r.prime = a.prime) ∧
    (b.num ≠ 0 → ∃ r, a.div b = some r ∧ r.num < a.prime ∧ r.prime = a.prime) ∧
    (a.num ≠ 0 → ∃ r, a.neg = some r ∧ r.num < a.prime ∧ r.prime = a.prime) ∧
    (a.num = 0 → a.neg = some ⟨a.prime, a.prime⟩) := by
  have hpos : 0 < a.prime := ha.pos
  have hblt : b.num < a.prime := hp ▸ hb
  refine ⟨⟨_, a.add_eval b hp hpos, Nat.mod_lt _ hpos, rfl⟩, ?_,
    ⟨_, a.mul_eval b hp hpos, Nat.mod_lt _ hpos, rfl⟩,
    fun hb0 => ⟨_, a.div_eval b hp hpos hb0, Nat.mod_lt _ hpos, rfl⟩,
    fun ha0 => ⟨_, a.neg_eval hpos, ?_, rfl⟩, fun ha0 => ?_⟩
  · by_cases hlt : a.num < b.num
    · refine ⟨_, a.sub_eval_lt b hp hpos hlt, ?_, rfl⟩
      show a.prime - (b.num - a.num) % a.prime < a.prime
      have hd : (b.num - a.num) % a.prime = b.num - a.num :=
        Nat.mod_eq_of_lt (by omega)
      omega
    · refine ⟨_, a.sub_eval_ge b hp (Nat.not_lt.mp hlt), ?_, rfl⟩
      show a.num - b.num < a.prime
      omega
  · show a.prime - a.num % a.prime < a.prime
    rw [Nat.mod_eq_of_lt ha]
    omega
  · rw [a.neg_eval hpos, ha0]
    rfl

/-- Claim C2 witness: closure instantiated at the elements `(2, 5)` and `(3, 5)`. -/
theorem closure_binops_neg_witness :
    (∃ r, FieldElement.add ⟨2, 5⟩ ⟨3, 5⟩ = some r ∧ r.num < 5 ∧ r.prime = 5) ∧
    (∃ r, FieldElement.sub ⟨2, 5⟩ ⟨3, 5⟩ = some r ∧ r.num < 5 ∧ r.prime = 5) ∧
    (∃ r, FieldElement.mul ⟨2, 5⟩ ⟨3, 5⟩ = some r ∧ r.num < 5 ∧ r.prime = 5) ∧
    ((3 : Nat) ≠ 0 →
      ∃ r, FieldElement.div ⟨2, 5⟩ ⟨3, 5⟩ = some r ∧ r.num < 5 ∧ r.prime = 5) ∧
    ((2 : Nat) ≠ 0 →
      ∃ r, FieldElement.neg ⟨2, 5⟩ = some r ∧ r.num < 5 ∧ r.prime = 5) ∧
    ((2 : Nat) = 0 → FieldElement.neg ⟨2, 5⟩ = some ⟨5, 5⟩) :=
  closure_binops_neg ⟨2, 5⟩ ⟨3, 5⟩ (by decide) (by decide) rfl

/-- Claim C3: evaluating the code at the element `(17, 31)` with exponent `-3`
yields the element `(7, 31)` — the implemented formula gives
`17 ^ (1 + 3) mod 31 = 7` — and `(7, 31)` is not equal (under the structural
`PartialEq`) to the element `(29, 31)` that the specification and the
repository's own `test_div` expect. -/
theorem pow_17_31_neg3_eval :
    FieldElement.pow ⟨17, 31⟩ (-3) = some ⟨7, 31⟩ ∧
    FieldElement.eq ⟨7, 31⟩ ⟨29, 31⟩ = false := by
  constructor
  · rfl
  · rfl

/-- Claim C4 (counterexample): at the zero element `(0, 11)` and the exponent
`2 ^ 64 = 18446744073709551616` (a valid non-negative `i128`) the `as usize`
cast truncates the exponent to `0`, so the code returns the residue
`0 ^ 0 mod 11 = 1`, while the claimed formula `num ^ power mod prime` demands
`0 ^ (2 ^ 64) mod 11`, which is `0`. -/
theorem pow_truncates_large_exponent :
    FieldElement.pow ⟨0, 11⟩ 18446744073709551616 = some ⟨1, 11⟩ ∧
    0 ^ (18446744073709551616 : Int).toNat % 11 = 0 := by
  constructor
  · decide
  · have p1 : (0 : Nat) ^ (18446744073709551616 : Int).toNat = 0 :=
      Nat.zero_pow (by decide)
    exact (congrArg (fun x => x % 11) p1).trans rfl

/-- Claim C4 (amended: the exponent magnitude fits the machine word): for a
validly constructed element, `pow` with a negative exponent no smaller than
`-(2 ^ 64 - 2)` returns the residue `num ^ (1 + |power|) mod prime`, and with
an exponent in `[0, 2 ^ 64)` the residue `num ^ power mod prime`, the modulus
unchanged in both cases; beyond those bounds the `as usize` cast truncates
the exponent, or the `1 + |power|` addition overflows, and the formula no
longer describes the code. -/
theorem pow_formula_bounded (a : FieldElement) (power : Int) (ha : a.Valid) :
    (-(2 ^ 64 - 2) ≤ power → power < 0 → a.pow power =
      some ⟨a.num ^ (1 + power.natAbs) % a.prime, a.prime⟩) ∧
    (0 ≤ power → power < 2 ^ 64 → a.pow power =
      some ⟨a.num ^ power.toNat % a.prime, a.prime⟩) := by
  have hpos : 0 < a.prime := ha.pos
  unfold FieldElement.pow
  constructor
  · intro hlb hneg
    rw [if_pos hneg, i128Neg_of_bounds power (by omega) (by omega),
      Option.some_bind, i128ToUsize_of_lt (-1 * power) (by omega) (by omega),
      usizeAdd_of_lt 1 _ (by omega), Option.some_bind, urem_of_pos _ _ hpos,
      Option.map_some']
    have habs : (-1 * power).toNat = power.natAbs := by omega
    rw [habs]
  · intro h0 hub
    rw [if_neg (Int.not_lt.mpr h0), Option.some_bind,
      i128ToUsize_of_lt power h0 hub, urem_of_pos _ _ hpos, Option.map_some']

/-- Claim C4 witness: the bounded `pow` formula at the element `(2, 5)`,
instantiated once at exponent `-3` and once at exponent `4`. -/
theorem pow_formula_bounded_witness :
    ((-(2 ^ 64 - 2) ≤ (-3 : Int) → (-3 : Int) < 0 → FieldElement.pow ⟨2, 5⟩ (-3) =
      some ⟨2 ^ (1 + (-3 : Int).natAbs) % 5, 5⟩) ∧
    ((0 : Int) ≤ -3 → (-3 : Int) < 2 ^ 64 → FieldElement.pow ⟨2, 5⟩ (-3) =
      some ⟨2 ^ (-3 : Int).toNat % 5, 5⟩)) ∧
    ((-(2 ^ 64 - 2) ≤ (4 : Int) → (4 : Int) < 0 → FieldElement.pow ⟨2, 5⟩ 4 =
      some ⟨2 ^ (1 + (4 : Int).natAbs) % 5, 5⟩) ∧
    ((0 : Int) ≤ 4 → (4 : Int) < 2 ^ 64 → FieldElement.pow ⟨2, 5⟩ 4 =
      some ⟨2 ^ (4 : Int).toNat % 5, 5⟩)) :=
  ⟨pow_formula_bounded ⟨2, 5⟩ (-3) (by decide),
    pow_formula_bounded ⟨2, 5⟩ 4 (by decide)⟩

/-- Claim C5: on validly constructed operands sharing a modulus, with a
nonzero divisor residue, division returns the integer floor quotient of the
residues reduced modulo the modulus, and the modulus of the left operand. -/
theorem div_floor_formula (a b : FieldElement) (ha : a.Valid) (_hb : b.Valid)
    (hp : a.prime = b.prime) (hb0 : b.num ≠ 0) :
    a.div b = some ⟨a.num / b.num % a.prime, a.prime⟩ :=
  a.div_eval b hp ha.pos hb0

/-- Claim C5 witness: division instantiated at the elements `(3, 31)` and
`(24, 31)` from the repository's `test_div`. -/
theorem div_floor_formula_witness :
    FieldElement.div ⟨3, 31⟩ ⟨24, 31⟩ = some ⟨3 / 24 % 31, 31⟩ :=
  div_floor_formula ⟨3, 31⟩ ⟨24, 31⟩ (by decide) (by decide) rfl (by decide)

/-- Claim C6: on any element whose modulus is positive (the data model declares
the modulus a positive integer), negation returns the element with residue
`prime - (num % prime)` and the same modulus; on a zero residue that result is
the modulus itself, which is nonzero. -/
theorem neg_formula (a : FieldElement) (hpos : 0 < a.prime) :
    a.neg = some ⟨a.prime - a.num % a.prime, a.prime⟩ ∧
    (a.num = 0 → a.neg = some ⟨a.prime, a.prime⟩ ∧ a.prime ≠ 0) := by
  refine ⟨a.neg_eval hpos, fun h0 => ⟨?_, Nat.pos_iff_ne_zero.mp hpos⟩⟩
  rw [a.neg_eval hpos, h0]
  rfl

/-- Claim C6 witness: negation instantiated at the zero element of modulus 7. -/
theorem neg_formula_witness :
    FieldElement.neg ⟨0, 7⟩ = some ⟨7 - 0 % 7, 7⟩ ∧
    ((0 : Nat) = 0 → FieldElement.neg ⟨0, 7⟩ = some ⟨7, 7⟩ ∧ (7 : Nat) ≠ 0) :=
  neg_formula ⟨0, 7⟩ (by decide)

/-- Claim C7: on validly constructed operands sharing a modulus, subtraction
returns an element with the same modulus whose residue is the mathematical
residue of `a.num - b.num` modulo the modulus, and subtracting an element from
itself yields the zero element. -/
theorem sub_residue (a b : FieldElement) (ha : a.Valid) (hb : b.Valid)
    (hp : a.prime = b.prime) :
    (∃ r, a.sub b = some r ∧ r.prime = a.prime ∧
      (r.num : Int) = ((a.num : Int) - (b.num : Int)) % (a.prime : Int)) ∧
    a.sub a = some ⟨0, a.prime⟩ := by
  have hpos : 0 < a.prime := ha.pos
  have hblt : b.num < a.prime := hp ▸ hb
  constructor
  · by_cases hlt : a.num < b.num
    · refine ⟨_, a.sub_eval_lt b hp hpos hlt, rfl, ?_⟩
      show ((a.prime - (b.num - a.num) % a.prime : Nat) : Int) = _
      have hd : (b.num - a.num) % a.prime = b.num - a.num :=
        Nat.mod_eq_of_lt (by omega)
      have hsplit : ((a.num : Int) - (b.num : Int)) =
          ((a.num : Int) - (b.num : Int) + (a.prime : Int)) + (a.prime : Int) * (-1) := by
        ring
      rw [hd, hsplit, Int.add_mul_emod_self_left,
        Int.emod_eq_of_lt (by omega) (by omega)]
      omega
    · refine ⟨_, a.sub_eval_ge b hp (Nat.not_lt.mp hlt), rfl, ?_⟩
      show ((a.num - b.num : Nat) : Int) = _
      rw [Int.emod_eq_of_lt (by omega) (by omega)]
      omega
  · rw [a.sub_eval_ge a rfl (Nat.le_refl _), Nat.sub_self]

/-- Claim C7 witness: subtraction instantiated at the elements `(5, 13)` and
`(12, 13)` from the repository's `test_sub`. -/
theorem sub_residue_witness :
    (∃ r, FieldElement.sub ⟨5, 13⟩ ⟨12, 13⟩ = some r ∧ r.prime = 13 ∧
      (r.num : Int) = ((5 : Int) - (12 : Int)) % (13 : Int)) ∧
    FieldElement.sub ⟨5, 13⟩ ⟨5, 13⟩ = some ⟨0, 13⟩ :=
  sub_residue ⟨5, 13⟩ ⟨12, 13⟩ (by decide) (by decide) rfl

/-- Claim C8: each of the four binary operators aborts (the `assert_eq!` on
the primes fails) when its operands carry different moduli, returning no value
and no recoverable error; in this development only `new` has a result type
with an error channel. -/
theorem binop_prime_mismatch_aborts (a b : FieldElement)
    (hp : a.prime ≠ b.prime) :
    a.add b = none ∧ a.sub b = none ∧ a.mul b = none ∧ a.div b = none := by
  unfold FieldElement.add FieldElement.sub FieldElement.mul FieldElement.div
  rw [if_neg hp, if_neg hp, if_neg hp, if_neg hp]
  exact ⟨rfl, rfl, rfl, rfl⟩

/-- Claim C8 witness: the four operators abort on the mismatched moduli 3 and 5. -/
theorem binop_prime_mismatch_aborts_witness :
    FieldElement.add ⟨1, 3⟩ ⟨1, 5⟩ = none ∧
    FieldElement.sub ⟨1, 3⟩ ⟨1, 5⟩ = none ∧
    FieldElement.mul ⟨1, 3⟩ ⟨1, 5⟩ = none ∧
    FieldElement.div ⟨1, 3⟩ ⟨1, 5⟩ = none :=
  binop_prime_mismatch_aborts ⟨1, 3⟩ ⟨1, 5⟩ (by decide)

/-- Claim C9: on validly constructed operands sharing a modulus, addition and
multiplication both succeed in either order and the two results are equal
under the structural `PartialEq`. -/
theorem add_mul_comm_same_prime (a b : FieldElement) (ha : a.Valid)
    (hb : b.Valid) (hp : a.prime = b.prime) :
    (∃ r s, a.add b = some r ∧ b.add a = some s ∧ FieldElement.eq r s = true) ∧
    (∃ r s, a.mul b = some r ∧ b.mul a = some s ∧ FieldElement.eq r s = true) := by
  have hpos : 0 < a.prime := ha.pos
  have hpos' : 0 < b.prime := hb.pos
  refine ⟨⟨_, _, a.add_eval b hp hpos, b.add_eval a hp.symm hpos', ?_⟩,
    ⟨_, _, a.mul_eval b hp hpos, b.mul_eval a hp.symm hpos', ?_⟩⟩
  · show ((a.num + b.num) % a.prime == (b.num + a.num) % b.prime
      && (a.prime == b.prime)) = true
    rw [Nat.add_comm, hp]
    simp
  · show (a.num * b.num % a.prime == b.num * a.num % b.prime
      && (a.prime == b.prime)) = true
    rw [Nat.mul_comm, hp]
    simp

/-- Claim C9 witness: commutativity instantiated at the elements `(2, 13)` and
`(10, 13)`. -/
theorem add_mul_comm_same_prime_witness :
    (∃ r s, FieldElement.add ⟨2, 13⟩ ⟨10, 13⟩ = some r ∧
      FieldElement.add ⟨10, 13⟩ ⟨2, 13⟩ = some s ∧ FieldElement.eq r s = true) ∧
    (∃ r s, FieldElement.mul ⟨2, 13⟩ ⟨10, 13⟩ = some r ∧
      FieldElement.mul ⟨10, 13⟩ ⟨2, 13⟩ = some s ∧ FieldElement.eq r s = true) :=
  add_mul_comm_same_prime ⟨2, 13⟩ ⟨10, 13⟩ (by decide) (by decide) rfl

/-- Claim C10: when the operands share a modulus and the divisor residue is
zero, division aborts (the `UBig` integer division by zero panics) and
returns no value. -/
theorem div_by_zero_aborts (a b : FieldElement) (hp : a.prime = b.prime)
    (hb0 : b.num = 0) : a.div b = none := by
  unfold FieldElement.div udiv
  rw [if_pos hp, hb0, if_pos rfl]
  rfl

/-- Claim C10 witness: dividing `(3, 5)` by the zero element `(0, 5)` aborts. -/
theorem div_by_zero_aborts_witness :
    FieldElement.div ⟨3, 5⟩ ⟨0, 5⟩ = none :=
  div_by_zero_aborts ⟨3, 5⟩ ⟨0, 5⟩ rfl rfl
